import Mathlib

/-!
Verification of the SangerSearch core (sangersearch_gui.py).

A shallow embedding of the search-and-coordinate-mapping engine of
SangerSearch: file location (`find_ab1_files`), per-file substring search
(`search_sequence`), the search loop over located files (`perform_search`,
from `SequenceFinderWindow.perform_search`), and the trace-window /
annotation computation (`plot_trace_section`).

Python strings are Lean `String`s, Python ints are `Int`, the real-valued
ratio `len(traces[0]) / len(record.seq)` is modelled exactly in `ℚ`, and
Python `int(...)` truncation toward zero is `pyInt`.  The trace reader
(`SeqIO.read`) is an external collaborator: it is passed in as a function
`String → Except String String` (error message or the called-base string),
and a decoded record with raw channel data is the structure `DecodedTrace`.
-/

set_option maxHeartbeats 1000000

namespace SangerSearch

/-- Python `s.upper()`, applied per character (the program only handles
ASCII base letters). -/
def pyUpper (s : String) : String := String.mk (s.data.map Char.toUpper)

/-- Python `s.endswith(suffix)`: the last `len(suffix)` characters equal
`suffix` (false when `s` is shorter). -/
def endsWithList (l suf : List Char) : Bool :=
  decide (l.drop (l.length - suf.length) = suf)

/-- The Biopython DNA complement on uppercase IUPAC codes (A↔T, C↔G, M↔K,
R↔Y, V↔B, H↔D; W, S, N are self-complementary); characters without an
entry pass through.  In the program the complement is applied only to the
already-uppercased query (line 35 of `sangersearch_gui.py`). -/
def complementChar (c : Char) : Char :=
  if c = 'A' then 'T' else if c = 'T' then 'A'
  else if c = 'C' then 'G' else if c = 'G' then 'C'
  else if c = 'M' then 'K' else if c = 'K' then 'M'
  else if c = 'R' then 'Y' else if c = 'Y' then 'R'
  else if c = 'V' then 'B' else if c = 'B' then 'V'
  else if c = 'H' then 'D' else if c = 'D' then 'H'
  else c

/-- Biopython `str(Seq(x).reverse_complement())`: complement every base and reverse. -/
def reverse_complement (s : String) : String :=
  String.mk ((s.data.map complementChar).reverse)

/-- Whether `pat` occurs in `s` starting at index `i`. -/
def matchesAt (s pat : List Char) (i : Nat) : Bool :=
  decide ((s.drop i).take pat.length = pat)

/-- Python `s.find(pat)`: index of the leftmost occurrence of `pat` as a
contiguous substring of `s`, or `-1` when there is none. -/
def pyFind (s pat : String) : Int :=
  match (List.range (s.length + 1)).find? (fun i => matchesAt s.data pat.data i) with
  | some i => (i : Int)
  | none => -1

/-- Python `pat in s` (contiguous-substring containment). -/
def containsSub (s pat : String) : Bool :=
  (List.range (s.length + 1)).any (fun i => matchesAt s.data pat.data i)

/-- The triple returned by `search_sequence`:
`(found, orientation, position)`. -/
structure SearchRet where
  found : Bool
  orientation : Option String
  position : Option Int
deriving Repr, DecidableEq

/-- Embeds `search_sequence(ab1_file, search_seq)` (lines 24–49).  The trace
reader `SeqIO.read` is the collaborator `reader`; reading either fails
with an exception message or yields `str(record.seq)`.  The result is the
returned triple together with the list of lines printed to stdout (the
`except` branch prints the file path and the reason). -/
def search_sequence (reader : String → Except String String)
    (ab1_file : String) (search_seq0 : String) : SearchRet × List String :=
  match reader ab1_file with
  | .error e =>
      ({ found := false, orientation := none, position := none },
       ["Error reading " ++ ab1_file ++ ": " ++ e])
  | .ok seq0 =>
      let search_seq := pyUpper search_seq0
      let sequence := pyUpper seq0
      let rev_comp := reverse_complement search_seq
      let forward_pos := pyFind sequence search_seq
      let reverse_pos := pyFind sequence rev_comp
      if forward_pos ≠ -1 then
        ({ found := true, orientation := some ("forward"), position := some forward_pos }, [])
      else if reverse_pos ≠ -1 then
        ({ found := true, orientation := some ("reverse complement"),
           position := some reverse_pos }, [])
      else
        ({ found := false, orientation := none, position := none }, [])

/-- The search loop of `SequenceFinderWindow.perform_search`
(lines 282–286): for each located file run `search_sequence`; when found,
append `(file, orientation, position)` to the results.  Returns the result
list in file order together with all printed error lines. -/
def perform_search (ab1_files : List String)
    (reader : String → Except String String) (query : String) :
    List (String × Option String × Option Int) × List String :=
  match ab1_files with
  | [] => ([], [])
  | file :: rest =>
      let r := search_sequence reader file query
      let rec0 := perform_search rest reader query
      ((if r.1.found then [(file, r.1.orientation, r.1.position)] else []) ++ rec0.1,
       r.2 ++ rec0.2)

/-! ## File locator (`find_ab1_files`, lines 15–22)

The filesystem is modelled as a tree of named entries.  A directory
carries a `readable` flag: `os.walk` (with its default `onerror=None`)
silently skips a directory it cannot list.  `os.walk` on a path that does
not exist, or that names a plain file, likewise yields nothing. -/

mutual

/-- A filesystem entry: a plain file, or a directory with a listing. -/
inductive FsNode where
  | file (name : String)
  | dir (name : String) (readable : Bool) (children : FsList)

/-- A directory listing, in traversal order. -/
inductive FsList where
  | nil
  | cons (n : FsNode) (rest : FsList)

end

/-- Python `os.path.join(root, file)` with a slash separator. -/
def joinPath (root file : String) : String := root ++ "/" ++ file

/-- The filter of line 20: `file.lower().endswith(ab1_suffix)` for the literal suffix .ab1. -/
def isAb1Name (name : String) : Bool :=
  endsWithList (name.data.map Char.toLower) ".ab1".data

/-- The selected files of one `os.walk` triple (line 19–21): the plain
files of one directory listing that pass the `.ab1` filter, joined to the
path of that directory. -/
def ab1FilesOf (path : String) : FsList → List String
  | .nil => []
  | .cons (.file name) rest =>
      (if isAb1Name name then [joinPath path name] else []) ++ ab1FilesOf path rest
  | .cons (.dir _ _ _) rest => ab1FilesOf path rest

mutual

/-- Continue the top-down walk through the remaining entries of a
directory listing. -/
def walkList (path : String) : FsList → List String
  | .nil => []
  | .cons n rest => walkNode path n ++ walkList path rest

/-- Walk one entry: a plain file contributes nothing of its own (files are
reported by the triple of their parent); an unreadable directory is skipped
silently; a readable directory contributes its own `.ab1` files and then
its subtree, top-down. -/
def walkNode (path : String) : FsNode → List String
  | .file _ => []
  | .dir name readable children =>
      if readable then
        ab1FilesOf (joinPath path name) children ++ walkList (joinPath path name) children
      else []

end

/-- Embeds `find_ab1_files(start_path)` (lines 15–22).  `root` is what
`start_path` resolves to on the modelled filesystem: `none` when the path
does not exist.  `os.walk` yields triples only when `start_path` is a
listable directory; its first triple is rooted at `start_path` itself. -/
def find_ab1_files (root : Option FsNode) (start_path : String) : List String :=
  match root with
  | some (.dir _ true children) =>
      ab1FilesOf start_path children ++ walkList start_path children
  | _ => []

/-! The specification-side description of the locator ("every file under D
whose name ends case-insensitively in the trace extension, at any nesting
depth, and only such files"): the same walk, collecting *every* reachable
file as a pair (joined path, file name), with no extension filter. -/

/-- All plain files of one directory listing, as (joined path, name). -/
def allFilesOf (path : String) : FsList → List (String × String)
  | .nil => []
  | .cons (.file name) rest => (joinPath path name, name) :: allFilesOf path rest
  | .cons (.dir _ _ _) rest => allFilesOf path rest

mutual

/-- All reachable files in the remaining entries of a listing. -/
def allList (path : String) : FsList → List (String × String)
  | .nil => []
  | .cons n rest => allNode path n ++ allList path rest

/-- All reachable files below one entry (unreadable directories are
unreachable). -/
def allNode (path : String) : FsNode → List (String × String)
  | .file _ => []
  | .dir name readable children =>
      if readable then
        allFilesOf (joinPath path name) children ++ allList (joinPath path name) children
      else []

end

/-- Modelled from the spec: every file reachable under an existing,
listable directory at `start_path` with listing `children`. -/
def allFilesUnder (start_path : String) (children : FsList) : List (String × String) :=
  allFilesOf start_path children ++ allList start_path children

/-! ## Coordinate mapper and view builder (`plot_trace_section`, lines 51–109) -/

/-- Python `int(x)`: truncation toward zero (here on the exact rational
value of the float computation). -/
def pyInt (q : ℚ) : ℤ := if q < 0 then ⌈q⌉ else ⌊q⌋

/-- Lines 62–69: `bases_per_point = len(traces[0]) / len(record.seq)`;
`start_point`/`end_point` are the padded base-window bounds times that
ratio, truncated by `int(...)`, then clamped by `max(0, ...)` and
`min(len(traces[0]), ...)`.  `channelLen` is `len(traces[0])`, `seqLen` is
`len(record.seq)` (nonzero: the caller has already divided by it),
`match_position` the base index of the match, `sequence_length` the query
length. -/
def computeWindow (channelLen seqLen : ℕ) (match_position : ℕ)
    (sequence_length : ℕ) : ℤ × ℤ :=
  let bases_per_point : ℚ := (channelLen : ℚ) / (seqLen : ℚ)
  let padding : ℤ := 20
  let start_point := pyInt ((((match_position : ℤ) - padding : ℤ) : ℚ) * bases_per_point)
  let end_point :=
    pyInt ((((match_position : ℤ) + (sequence_length : ℤ) + padding : ℤ) : ℚ) * bases_per_point)
  (max 0 start_point, min (channelLen : ℤ) end_point)

/-- Python `t[s:e]` for `0 ≤ s` and `0 ≤ e` (the clamped window bounds are
nonnegative): elements from index `s` up to, not including, `e`; never out
of bounds. -/
def pySlice (t : List ℤ) (s e : ℤ) : List ℤ := (t.take e.toNat).drop s.toNat

/-- A decoded trace record (`SeqIO.read(ab1_file, "abi")`): the called
base sequence and the four raw channels `DATA9`–`DATA12`. -/
structure DecodedTrace where
  seq : List Char
  dataA : List ℤ
  dataC : List ℤ
  dataG : List ℤ
  dataT : List ℤ
deriving Repr, DecidableEq

/-- The ways `plot_trace_section` fails on degenerate traces:
`len(record.seq) == 0` makes line 63 raise `ZeroDivisionError`; an empty
windowed channel slice makes `max()` on line 88 raise `ValueError`. -/
inductive PlotError where
  | zeroDivisionError
  | valueErrorEmptyMax
deriving Repr, DecidableEq

/-- Line 92: `base not in acgt_literal` for the four-letter literal ACGT for the single character `base`. -/
def isAmbiguous (base : Char) : Bool :=
  !(base = 'A' || base = 'C' || base = 'G' || base = 'T')

/-- Python `range(a, b)` over integers. -/
def intRange (a b : ℤ) : List ℤ :=
  (List.range (b - a).toNat).map (fun (k : ℕ) => a + (k : ℤ))

/-- Lines 89–98: for every `i` in
`range(match_position - padding, match_position + sequence_length + padding)`
with `0 <= i < len(record.seq)`, one base letter is drawn at position `i`;
it is purple (ambiguous) exactly when the base at `i` is outside ACGT. -/
def annotatedBases (seq : List Char) (match_position : ℕ) (sequence_length : ℕ) :
    List (ℤ × Char × Bool) :=
  (intRange ((match_position : ℤ) - 20)
      ((match_position : ℤ) + (sequence_length : ℤ) + 20)).filterMap
    (fun i =>
      if 0 ≤ i ∧ i < (seq.length : ℤ) then
        let base := seq.getD i.toNat ' '
        some (i, base, isAmbiguous base)
      else none)

/-- The render-ready projection assembled by `plot_trace_section`: the
four windowed channel slices, the `np.linspace` x-axis parameters
(start, stop, point count), the highlighted base range, the base
annotations, and the `max_height` signal maximum used to place them. -/
structure TraceView where
  window_channels : List (List ℤ)
  x_axis_start : ℚ
  x_axis_stop : ℚ
  x_axis_points : ℕ
  highlighted_lo : ℤ
  highlighted_hi : ℤ
  annotated : List (ℤ × Char × Bool)
  max_height : ℤ
deriving Repr, DecidableEq

/-- Embeds `plot_trace_section(ab1_file, match_position, sequence_length, ...)`
(lines 51–109), on an already-decoded `record`.  Fails with
`zeroDivisionError` when the called sequence is empty (line 63) and with
`valueErrorEmptyMax` when any windowed channel slice is empty, so that
`max(max(trace[start_point:end_point]) ...)` on line 88 has an empty
argument; otherwise builds the trace view. -/
def plot_trace_section (record : DecodedTrace) (match_position : ℕ)
    (sequence_length : ℕ) : Except PlotError TraceView :=
  let traces := [record.dataA, record.dataC, record.dataG, record.dataT]
  if record.seq.length = 0 then .error .zeroDivisionError
  else
    let w := computeWindow record.dataA.length record.seq.length match_position sequence_length
    let slices := traces.map (fun t => pySlice t w.1 w.2)
    if slices.any (fun s => s.isEmpty) then .error .valueErrorEmptyMax
    else
      .ok { window_channels := slices
            x_axis_start := ((match_position : ℤ) - 20 : ℤ)
            x_axis_stop := ((match_position : ℤ) + (sequence_length : ℤ) + 20 : ℤ)
            x_axis_points := (w.2 - w.1).toNat
            highlighted_lo := (match_position : ℤ)
            highlighted_hi := (match_position : ℤ) + (sequence_length : ℤ)
            annotated := annotatedBases record.seq match_position sequence_length
            max_height := ((slices.map (fun s => s.max?.getD 0)).max?.getD 0) }

/-! ## Helper lemmas about leftmost search -/

theorem find?_range_eq_some {p : Nat → Bool} {i : Nat} :
    ∀ n, i < n → p i = true → (∀ j, j < i → p j = false) →
    (List.range n).find? p = some i
  | 0, hin, _, _ => absurd hin (Nat.not_lt_zero i)
  | n + 1, hin, hpi, hmin => by
    rw [List.range_succ, List.find?_append]
    by_cases hi : i < n
    · rw [find?_range_eq_some n hi hpi hmin]; rfl
    · have hieq : i = n := by omega
      subst hieq
      have hnone : (List.range i).find? p = none := by
        rw [List.find?_eq_none]
        intro x hx
        simp only [List.mem_range] at hx
        simp [hmin x hx]
      rw [hnone, List.find?_cons_of_pos _ hpi]
      rfl

theorem matchesAt_bound {s pat : List Char} {i : Nat}
    (h : matchesAt s pat i = true)
    (hmin : ∀ j, j < i → matchesAt s pat j = false) : i < s.length + 1 := by
  by_cases hp : pat = []
  · subst hp
    have h0 : matchesAt s [] 0 = true := by simp [matchesAt]
    by_cases hi : i = 0
    · omega
    · exact absurd h0 (by simp [hmin 0 (by omega)])
  · unfold matchesAt at h
    rw [decide_eq_true_eq] at h
    have hlen := congrArg List.length h
    simp only [List.length_take, List.length_drop] at hlen
    have hpos : 0 < pat.length := List.length_pos.mpr hp
    omega

theorem pyFind_eq {s pat : String} {i : Nat}
    (h : matchesAt s.data pat.data i = true)
    (hmin : ∀ j, j < i → matchesAt s.data pat.data j = false) :
    pyFind s pat = (i : ℤ) := by
  have hb : i < s.length + 1 := matchesAt_bound h hmin
  unfold pyFind
  rw [find?_range_eq_some (s.length + 1) hb h hmin]

theorem pyFind_eq_neg_one {s pat : String}
    (h : containsSub s pat = false) : pyFind s pat = -1 := by
  unfold containsSub at h
  rw [List.any_eq_false] at h
  unfold pyFind
  rw [List.find?_eq_none.mpr (by intro x hx; simpa using h x hx)]

/-! ## Claims about the sequence matcher -/

/-- C1: for every sequence S and query Q (both normalized to uppercase)
such that Q occurs as a contiguous substring of S with leftmost occurrence
at index i, `search_sequence` returns the found/forward/i triple — with no
assumption about whether the reverse complement of Q also occurs in S. -/
theorem search_sequence_forward_leftmost
    (reader : String → Except String String) (path q S : String) (i : Nat)
    (hread : reader path = .ok S)
    (hocc : matchesAt (pyUpper S).data (pyUpper q).data i = true)
    (hleft : ∀ j, j < i → matchesAt (pyUpper S).data (pyUpper q).data j = false) :
    (search_sequence reader path q).1 =
      { found := true, orientation := some ("forward"), position := some (i : ℤ) } := by
  unfold search_sequence
  rw [hread]
  have hf : pyFind (pyUpper S) (pyUpper q) = (i : ℤ) := pyFind_eq hocc hleft
  simp only [hf]
  have : (i : ℤ) ≠ -1 := by omega
  simp [this]

/-- C1 witness: sequence "ACGTACGTTT", query "ACGT" (whose reverse
complement "ACGT" also occurs) gives the forward match at index 0. -/
theorem search_sequence_forward_leftmost_witness :
    (search_sequence (fun _ => .ok ("ACGTACGTTT")) "f.ab1" "ACGT").1 =
      { found := true, orientation := some ("forward"), position := some (0 : ℤ) } :=
  search_sequence_forward_leftmost (fun _ => .ok ("ACGTACGTTT")) "f.ab1" "ACGT"
    "ACGTACGTTT" 0 rfl (by decide) (by intro j hj; omega)

/-- C2: when S (uppercased) does not contain Q (uppercased) but contains
reverse_complement(Q) with leftmost occurrence at index j,
`search_sequence` returns the reverse-complement match at j; and when S
contains neither, it returns the no-match triple. -/
theorem search_sequence_reverse_and_nomatch
    (reader : String → Except String String) (path q S : String) (j : Nat)
    (hread : reader path = .ok S) :
    (containsSub (pyUpper S) (pyUpper q) = false →
      matchesAt (pyUpper S).data (reverse_complement (pyUpper q)).data j = true →
      (∀ j2, j2 < j →
        matchesAt (pyUpper S).data (reverse_complement (pyUpper q)).data j2 = false) →
      (search_sequence reader path q).1 =
        { found := true, orientation := some ("reverse complement"),
          position := some (j : ℤ) }) ∧
    (containsSub (pyUpper S) (pyUpper q) = false →
      containsSub (pyUpper S) (reverse_complement (pyUpper q)) = false →
      (search_sequence reader path q).1 =
        { found := false, orientation := none, position := none }) := by
  constructor
  · intro hnofwd hocc hleft
    unfold search_sequence
    rw [hread]
    have hf : pyFind (pyUpper S) (pyUpper q) = -1 := pyFind_eq_neg_one hnofwd
    have hr : pyFind (pyUpper S) (reverse_complement (pyUpper q)) = (j : ℤ) :=
      pyFind_eq hocc hleft
    have : (j : ℤ) ≠ -1 := by omega
    simp [hf, hr, this]
  · intro hnofwd hnorev
    unfold search_sequence
    rw [hread]
    have hf : pyFind (pyUpper S) (pyUpper q) = -1 := pyFind_eq_neg_one hnofwd
    have hr : pyFind (pyUpper S) (reverse_complement (pyUpper q)) = -1 :=
      pyFind_eq_neg_one hnorev
    simp [hf, hr]

/-- C2 witness: sequence "TTTGGTT" and query "AACC" (reverse complement
"GGTT", leftmost at index 3) give the reverse-complement match at 3; and
with query "AAAA" (reverse complement "TTTT") the sequence "ACGC" gives
the no-match triple. -/
theorem search_sequence_reverse_and_nomatch_witness :
    (search_sequence (fun _ => .ok ("TTTGGTT")) "r.ab1" "AACC").1 =
      { found := true, orientation := some ("reverse complement"),
        position := some (3 : ℤ) } ∧
    (search_sequence (fun _ => .ok ("ACGC")) "n.ab1" "AAAA").1 =
      { found := false, orientation := none, position := none } := by
  constructor
  · exact (search_sequence_reverse_and_nomatch (fun _ => .ok ("TTTGGTT")) "r.ab1"
      "AACC" "TTTGGTT" 3 rfl).1 (by decide) (by decide) (by decide)
  · exact (search_sequence_reverse_and_nomatch (fun _ => .ok ("ACGC")) "n.ab1"
      "AAAA" "ACGC" 0 rfl).2 (by decide) (by decide)

/-- C9: reverse complement is an involution on queries over the
four-letter alphabet {A, C, G, T}. -/
theorem reverse_complement_involution (s : String)
    (h : ∀ c ∈ s.data, c = 'A' ∨ c = 'C' ∨ c = 'G' ∨ c = 'T') :
    reverse_complement (reverse_complement s) = s := by
  cases s with
  | mk data =>
    show String.mk _ = String.mk data
    unfold reverse_complement
    simp only [List.map_reverse, List.reverse_reverse, List.map_map]
    congr 1
    have : ∀ c ∈ data, (complementChar ∘ complementChar) c = c := by
      intro c hc
      rcases h c hc with h1 | h1 | h1 | h1 <;> subst h1 <;> rfl
    calc data.map (complementChar ∘ complementChar) = data.map id :=
          List.map_congr_left this
      _ = data := List.map_id data

/-- C9 witness: the involution on the concrete query "ACGT". -/
theorem reverse_complement_involution_witness :
    reverse_complement (reverse_complement ("ACGT")) = "ACGT" :=
  reverse_complement_involution ("ACGT") (by decide)

/-- C10: when the trace reader fails with any exception, `search_sequence`
returns the no-match triple (False, None, None) — at its interface a
decode failure is indistinguishable from a file without a match. -/
theorem search_sequence_decode_failure
    (reader : String → Except String String) (path q e : String)
    (hread : reader path = .error e) :
    (search_sequence reader path q).1 =
      { found := false, orientation := none, position := none } := by
  unfold search_sequence
  rw [hread]

/-- C10 witness: a reader that always fails yields the no-match triple. -/
theorem search_sequence_decode_failure_witness :
    (search_sequence (fun _ => .error ("file corrupt")) "bad.ab1" "ACGT").1 =
      { found := false, orientation := none, position := none } :=
  search_sequence_decode_failure (fun _ => .error ("file corrupt"))
    "bad.ab1" "ACGT" "file corrupt" rfl

/-! ## Claims about the coordinate mapper and view builder -/

theorem pyInt_mono {x y : ℚ} (h : x ≤ y) : pyInt x ≤ pyInt y := by
  unfold pyInt
  by_cases hx : x < 0
  · by_cases hy : y < 0
    · rw [if_pos hx, if_pos hy]
      exact Int.ceil_le_ceil h
    · rw [if_pos hx, if_neg hy]
      have h1 : ⌈x⌉ ≤ 0 := Int.ceil_le.mpr (by exact_mod_cast le_of_lt hx)
      have h2 : (0 : ℤ) ≤ ⌊y⌋ := Int.floor_nonneg.mpr (le_of_not_lt hy)
      omega
  · have hy : ¬y < 0 := fun hy => hx (lt_of_le_of_lt h hy)
    rw [if_neg hx, if_neg hy]
    exact Int.floor_le_floor h

theorem pyInt_nonneg {x : ℚ} (h : 0 ≤ x) : 0 ≤ pyInt x := by
  unfold pyInt
  rw [if_neg (not_lt.mpr h)]
  exact Int.floor_nonneg.mpr h

theorem pyInt_le_int {x : ℚ} {z : ℤ} (hz : 0 ≤ z) (h : x < (z : ℚ)) :
    pyInt x ≤ z := by
  unfold pyInt
  by_cases hx : x < 0
  · rw [if_pos hx]
    have h1 : ⌈x⌉ ≤ 0 := Int.ceil_le.mpr (by exact_mod_cast le_of_lt hx)
    omega
  · rw [if_neg hx]
    exact le_of_lt (Int.floor_lt.mpr h)

/-- C3: for a decoded trace with channel length M ≥ 1 and sequence length
N ≥ 1, any match position in [0, N) and any query length, the clamped
sample window satisfies `0 ≤ start_point ≤ end_point ≤ M`, so slicing the
channels over it stays in bounds. -/
theorem computeWindow_bounds (channelLen seqLen match_position sequence_length : ℕ)
    (hM : 1 ≤ channelLen) (hN : 1 ≤ seqLen) (hp : match_position < seqLen) :
    0 ≤ (computeWindow channelLen seqLen match_position sequence_length).1 ∧
    (computeWindow channelLen seqLen match_position sequence_length).1 ≤
      (computeWindow channelLen seqLen match_position sequence_length).2 ∧
    (computeWindow channelLen seqLen match_position sequence_length).2 ≤
      (channelLen : ℤ) := by
  have hcw : computeWindow channelLen seqLen match_position sequence_length =
      (max 0 (pyInt ((((match_position : ℤ) - 20 : ℤ) : ℚ) *
          ((channelLen : ℚ) / (seqLen : ℚ)))),
       min (channelLen : ℤ)
         (pyInt ((((match_position : ℤ) + (sequence_length : ℤ) + 20 : ℤ) : ℚ) *
           ((channelLen : ℚ) / (seqLen : ℚ))))) := rfl
  rw [hcw]
  set r : ℚ := (channelLen : ℚ) / (seqLen : ℚ) with hr
  have hrpos : 0 < r := div_pos (by exact_mod_cast hM) (by exact_mod_cast hN)
  have hNr : (seqLen : ℚ) * r = (channelLen : ℚ) := by
    rw [hr]
    field_simp
  have hab : (((match_position : ℤ) - 20 : ℤ) : ℚ) * r ≤
      (((match_position : ℤ) + (sequence_length : ℤ) + 20 : ℤ) : ℚ) * r := by
    apply mul_le_mul_of_nonneg_right _ (le_of_lt hrpos)
    push_cast
    linarith [Int.ofNat_nonneg sequence_length]
  have hbnn : 0 ≤ (((match_position : ℤ) + (sequence_length : ℤ) + 20 : ℤ) : ℚ) * r := by
    apply mul_nonneg _ (le_of_lt hrpos)
    push_cast
    positivity
  have haM : pyInt ((((match_position : ℤ) - 20 : ℤ) : ℚ) * r) ≤ (channelLen : ℤ) := by
    apply pyInt_le_int (by exact_mod_cast Nat.zero_le channelLen)
    calc (((match_position : ℤ) - 20 : ℤ) : ℚ) * r
        ≤ (match_position : ℚ) * r := by
          apply mul_le_mul_of_nonneg_right _ (le_of_lt hrpos)
          push_cast
          linarith
      _ < (seqLen : ℚ) * r := by
          apply mul_lt_mul_of_pos_right _ hrpos
          exact_mod_cast hp
      _ = (channelLen : ℚ) := hNr
  refine ⟨le_max_left 0 _, le_min ?_ ?_, min_le_left _ _⟩
  · exact max_le (by exact_mod_cast Nat.zero_le channelLen) haM
  · exact max_le (pyInt_nonneg hbnn) (pyInt_mono hab)

/-- C3 witness: the spec scenario — 200 samples, 50 bases, match at base
10, query length 4 — has a well-bounded window. -/
theorem computeWindow_bounds_witness :
    0 ≤ (computeWindow 200 50 10 4).1 ∧
    (computeWindow 200 50 10 4).1 ≤ (computeWindow 200 50 10 4).2 ∧
    (computeWindow 200 50 10 4).2 ≤ (200 : ℤ) :=
  computeWindow_bounds 200 50 10 4 (by decide) (by decide) (by decide)

theorem mem_intRange {a b i : ℤ} : i ∈ intRange a b ↔ a ≤ i ∧ i < b := by
  unfold intRange
  simp only [List.mem_map, List.mem_range]
  constructor
  · rintro ⟨k, hk, rfl⟩
    omega
  · intro h
    exact ⟨(i - a).toNat, by omega, by omega⟩

/-- C4: every integer base position `i` of the padded window that lies in
`[0, sequence_length)` yields an annotation `(i, seq[i], is_ambiguous)` in
the built view, and the ambiguity flag is true exactly when `seq[i]` is
not one of A, C, G, T. -/
theorem annotatedBases_complete (seq : List Char)
    (match_position sequence_length : ℕ) (i : ℤ)
    (h1 : (match_position : ℤ) - 20 ≤ i)
    (h2 : i < (match_position : ℤ) + (sequence_length : ℤ) + 20)
    (h3 : 0 ≤ i) (h4 : i < (seq.length : ℤ)) :
    (i, seq.getD i.toNat ' ', isAmbiguous (seq.getD i.toNat ' ')) ∈
      annotatedBases seq match_position sequence_length ∧
    (isAmbiguous (seq.getD i.toNat ' ') = true ↔
      ¬(seq.getD i.toNat ' ' = 'A' ∨ seq.getD i.toNat ' ' = 'C' ∨
        seq.getD i.toNat ' ' = 'G' ∨ seq.getD i.toNat ' ' = 'T')) := by
  constructor
  · unfold annotatedBases
    rw [List.mem_filterMap]
    refine ⟨i, mem_intRange.mpr ⟨h1, h2⟩, ?_⟩
    rw [if_pos ⟨h3, h4⟩]
  · unfold isAmbiguous
    simp only [Bool.not_eq_true', Bool.or_eq_false_iff, decide_eq_false_iff_not]
    tauto

/-- C4 witness: in the sequence "AN" with a match at position 0 of length
1, window position 1 is annotated with the ambiguous base 'N'. -/
theorem annotatedBases_complete_witness :
    ((1 : ℤ), 'N', isAmbiguous 'N') ∈ annotatedBases ['A', 'N'] 0 1 ∧
    (isAmbiguous 'N' = true ↔ ¬('N' = 'A' ∨ 'N' = 'C' ∨ 'N' = 'G' ∨ 'N' = 'T')) :=
  annotatedBases_complete ['A', 'N'] 0 1 1 (by decide) (by decide)
    (by decide) (by decide)

/-- C7: on a decoded trace with channel length 0 or sequence length 0, the
view builder fails: an empty called sequence makes the `samples_per_base`
division fail, and an empty channel makes the window maximum fail. -/
theorem plot_trace_section_degenerate (record : DecodedTrace)
    (match_position sequence_length : ℕ)
    (h : record.dataA.length = 0 ∨ record.seq.length = 0) :
    ∃ err, plot_trace_section record match_position sequence_length =
      Except.error err := by
  by_cases hN : record.seq.length = 0
  · exact ⟨.zeroDivisionError, by unfold plot_trace_section; rw [if_pos hN]⟩
  · have hM : record.dataA.length = 0 := by tauto
    have hA : record.dataA = [] := List.length_eq_zero.mp hM
    refine ⟨.valueErrorEmptyMax, ?_⟩
    unfold plot_trace_section
    rw [if_neg hN]
    have hempty : pySlice record.dataA
        (computeWindow record.dataA.length record.seq.length match_position
          sequence_length).1
        (computeWindow record.dataA.length record.seq.length match_position
          sequence_length).2 = [] := by
      rw [hA]
      unfold pySlice
      simp
    simp only [List.map_cons, List.any_cons, hempty, List.isEmpty_nil,
      Bool.true_or, if_pos]

/-- C7 witness: the fully empty decoded trace fails. -/
theorem plot_trace_section_degenerate_witness :
    ∃ err, plot_trace_section ⟨[], [], [], [], []⟩ 0 0 = Except.error err :=
  plot_trace_section_degenerate ⟨[], [], [], [], []⟩ 0 0 (Or.inr rfl)

/-! ## Claims about the search orchestrator -/

theorem perform_search_nil (reader : String → Except String String) (q : String) :
    perform_search [] reader q = ([], []) := rfl

theorem perform_search_cons (f : String) (rest : List String)
    (reader : String → Except String String) (q : String) :
    perform_search (f :: rest) reader q =
      ((if (search_sequence reader f q).1.found then
          [(f, (search_sequence reader f q).1.orientation,
            (search_sequence reader f q).1.position)]
        else []) ++ (perform_search rest reader q).1,
       (search_sequence reader f q).2 ++ (perform_search rest reader q).2) := rfl

/-- C5: a decode failure on one located file never aborts the search: the
results over `pre ++ [bad] ++ post` are exactly the successful results of
`pre` followed by those of `post`, in file-locator order, and the failure
(file path and reason) is recorded in the printed warnings. -/
theorem perform_search_failure_isolated (pre post : List String) (bad : String)
    (reader : String → Except String String) (q e : String)
    (hbad : reader bad = .error e) :
    (perform_search (pre ++ bad :: post) reader q).1 =
      (perform_search pre reader q).1 ++ (perform_search post reader q).1 ∧
    ("Error reading " ++ bad ++ ": " ++ e) ∈
      (perform_search (pre ++ bad :: post) reader q).2 := by
  have hbadret : search_sequence reader bad q =
      ({ found := false, orientation := none, position := none },
       ["Error reading " ++ bad ++ ": " ++ e]) := by
    unfold search_sequence
    rw [hbad]
  induction pre with
  | nil =>
    rw [List.nil_append, perform_search_cons, perform_search_nil]
    simp [hbadret]
  | cons f rest ih =>
    rw [List.cons_append, perform_search_cons, perform_search_cons]
    constructor
    · simp only [ih.1, List.append_assoc]
    · simp only [List.mem_append]
      right
      simpa using ih.2

/-- C5 witness: with "b.ab1" unreadable among three files, the results are
those of the two healthy files in order and the failure is logged. -/
theorem perform_search_failure_isolated_witness :
    (perform_search (["a.ab1"] ++ "b.ab1" :: ["c.ab1"])
        (fun p => if p = "b.ab1" then .error ("corrupt") else .ok ("ACGT")) "ACGT").1 =
      (perform_search ["a.ab1"]
        (fun p => if p = "b.ab1" then .error ("corrupt") else .ok ("ACGT")) "ACGT").1 ++
      (perform_search ["c.ab1"]
        (fun p => if p = "b.ab1" then .error ("corrupt") else .ok ("ACGT")) "ACGT").1 ∧
    ("Error reading " ++ "b.ab1" ++ ": " ++ "corrupt") ∈
      (perform_search (["a.ab1"] ++ "b.ab1" :: ["c.ab1"])
        (fun p => if p = "b.ab1" then .error ("corrupt") else .ok ("ACGT")) "ACGT").2 :=
  perform_search_failure_isolated ["a.ab1"] ["c.ab1"] "b.ab1"
    (fun p => if p = "b.ab1" then .error ("corrupt") else .ok ("ACGT"))
    "ACGT" "corrupt" (by simp)

/-! ## Claims about the file locator -/

/-- C6 counterexample: on a root path that does not exist the locator does
not fail at all — `os.walk` yields nothing and `find_ab1_files` returns
the ordinary empty list, never a `NotFoundError`. -/
theorem find_ab1_files_missing_root_returns_empty :
    find_ab1_files none ("/no/such/dir") = ([] : List String) := rfl

/-- C6 amended: `locate(root)` silently returns the empty list (it never
fails) when the root does not exist, is a plain file, or is an unreadable
directory; and an unreadable subdirectory is silently skipped while the
walk continues with its siblings. -/
theorem find_ab1_files_degenerate_roots :
    (∀ start_path, find_ab1_files none start_path = []) ∧
    (∀ start_path nm, find_ab1_files (some (.file nm)) start_path = []) ∧
    (∀ start_path nm cs, find_ab1_files (some (.dir nm false cs)) start_path = []) ∧
    (∀ path nm cs rest,
      walkList path (.cons (.dir nm false cs) rest) = walkList path rest) := by
  refine ⟨fun _ => rfl, fun _ _ => rfl, fun _ _ _ => rfl, fun path nm cs rest => ?_⟩
  rw [walkList]
  simp [walkNode]

theorem ab1FilesOf_eq (path : String) : ∀ l : FsList,
    ab1FilesOf path l =
      ((allFilesOf path l).filter (fun e => isAb1Name e.2)).map Prod.fst
  | .nil => rfl
  | .cons (.file name) rest => by
    rw [ab1FilesOf, allFilesOf, ab1FilesOf_eq path rest]
    by_cases h : isAb1Name name
    · simp [List.filter_cons, h]
    · simp [List.filter_cons, h]
  | .cons (.dir nm r cs) rest => by
    rw [ab1FilesOf, allFilesOf, ab1FilesOf_eq path rest]

mutual

theorem walkList_eq (path : String) : ∀ l : FsList,
    walkList path l =
      ((allList path l).filter (fun e => isAb1Name e.2)).map Prod.fst
  | .nil => rfl
  | .cons n rest => by
    rw [walkList, allList, walkNode_eq path n, walkList_eq path rest,
      List.filter_append, List.map_append]

theorem walkNode_eq (path : String) : ∀ n : FsNode,
    walkNode path n =
      ((allNode path n).filter (fun e => isAb1Name e.2)).map Prod.fst
  | .file nm => rfl
  | .dir nm false cs => by
    rw [walkNode, allNode]
    rfl
  | .dir nm true cs => by
    rw [walkNode, allNode, ab1FilesOf_eq (joinPath path nm) cs,
      walkList_eq (joinPath path nm) cs]
    simp [List.filter_append]

end

/-- C8: for every existing, listable directory, the locator returns
exactly the reachable files whose names pass the case-insensitive `.ab1`
check — every such file and only such files, at any nesting depth. -/
theorem find_ab1_files_spec (start_path nm : String) (children : FsList) :
    find_ab1_files (some (.dir nm true children)) start_path =
      ((allFilesUnder start_path children).filter
        (fun e => isAb1Name e.2)).map Prod.fst := by
  show ab1FilesOf start_path children ++ walkList start_path children = _
  rw [allFilesUnder, List.filter_append, List.map_append,
    ab1FilesOf_eq start_path children, walkList_eq start_path children]

end SangerSearch
